import Mathlib

/-!
# Verification of rgbman against its specification

Shallow embedding of the three source files of the rgbman repository:

* `src/main.rs`    — the lighting state machine (`run_state_machine`), the
  colour-distribution channel, and orchestration;
* `src/auda0_e6k5_0101_dram.rs`  — the register-bus DRAM LED driver (`I2cDram`);
* `src/gigabyte_rgb_fusion2_usb.rs` — the packet (HID feature-report) LED
  driver (`Fusion2Argb` and `PktEffect`).

Conventions: machine integers (`u8`, `u16`, `u32`, `usize`) are modelled as
`Nat`, with an explicit `% 2^w` exactly where the Rust code can overflow or
truncate (`as u8` casts, `u16` shifts).  The `f32` brightness values of the
state machine are modelled as `ℚ`; the numeric literals `0.08`, `0.2`, `1.0`
of the source become the exact rationals `2/25`, `1/5`, `1`.  Effectful code
(channel sends, timer sleeps, bus and HID transactions) is modelled by the
trace of operations it performs, so every definition is executable.
-/

/-! ## `src/main.rs` — the lighting state machine -/

/-- `enum Mode { On, Off }` (src/main.rs). -/
inductive Mode
  | On
  | Off
deriving DecidableEq, Repr

/-- `enum State` (src/main.rs): the animation state.  `Box<State>` in
`SetColourThen` becomes plain structural recursion. -/
inductive State
  | Fading (mode : Mode) (raw : ℚ)
  | Turning (mode : Mode)
  | Idle (mode : Mode)
  | SetColourThen (x : ℚ) (next : State)
deriving DecidableEq, Repr

/-- The observable effects one iteration of `run_state_machine`'s loop
performs: `tokio::time::sleep` (duration in milliseconds) and
`send_rgb_value.send` of a brightness value. -/
inductive Event
  | sleepMillis (ms : ℕ)
  | sendValue (x : ℚ)
deriving DecidableEq, Repr

/-- Result of one iteration of the `loop` in `run_state_machine`
(src/main.rs:99-156): the new `state`, the new value of the
`long_wait_when_idle` flag, and the events performed, in order. -/
structure StepOut where
  state : State
  long_wait : Bool
  events : List Event
deriving DecidableEq, Repr

/-- One iteration of the `loop` of `run_state_machine` (src/main.rs:101-151),
as a function of the current local `hour` (read by `Local::now().hour()`;
only the `Idle` arm looks at it), the current `long_wait_when_idle` flag and
the current state.  A successful `send` is assumed (a send error aborts the
whole run; no claim is about that path). -/
def machineStep (hour : ℕ) (long_wait_when_idle : Bool) : State → StepOut
  | State.SetColourThen x new_state =>
      ⟨new_state, long_wait_when_idle, [Event.sendValue x]⟩
  | State.Fading mode raw_x =>
      let x : ℚ :=
        match mode with
        | Mode.On => 1 - raw_x
        | Mode.Off => raw_x
      if raw_x > 2/25 then
        ⟨State.SetColourThen (x * (1/5)) (State.Fading mode (raw_x * (1/5))),
         long_wait_when_idle,
         if raw_x ≠ 1 then [Event.sleepMillis 80] else []⟩
      else
        ⟨State.Turning mode, long_wait_when_idle, []⟩
  | State.Turning mode =>
      match mode with
      | Mode.On =>
          ⟨State.SetColourThen 1 (State.Idle Mode.On), long_wait_when_idle, []⟩
      | Mode.Off =>
          ⟨State.SetColourThen 0 (State.Idle Mode.Off), long_wait_when_idle, []⟩
  | State.Idle mode =>
      let pre : Event :=
        if ¬ long_wait_when_idle then Event.sleepMillis (5 * 60 * 1000)
        else Event.sleepMillis (60 * 60 * 3 * 1000)
      if 8 ≤ hour ∧ hour < 18 then
        if mode = Mode.Off then
          ⟨State.Fading Mode.On 1, false, [pre]⟩
        else
          ⟨State.Turning Mode.On, false, [pre, Event.sleepMillis (5 * 60 * 1000)]⟩
      else if 18 ≤ hour then
        if mode = Mode.On then
          ⟨State.Fading Mode.Off 1, false, [pre]⟩
        else
          ⟨State.Turning Mode.Off, false, [pre, Event.sleepMillis (5 * 60 * 1000)]⟩
      else
        ⟨State.Turning mode, false, [pre, Event.sleepMillis (5 * 60 * 1000)]⟩

/-- The (state, long-wait flag) part of one loop iteration, for iterating the
machine. -/
def machineNext (hour : ℕ) (p : State × Bool) : State × Bool :=
  ((machineStep hour p.2 p.1).state, (machineStep hour p.2 p.1).long_wait)

/-- C1: Fade step rule — in state `Fading(mode, raw)`, with `x = raw` for
`mode = Off` and `x = 1 - raw` for `mode = On`: if `raw > 0.08` the next
state is `SetColourThen(x * 0.2, Fading(mode, raw * 0.2))`, the 80 ms
pre-step delay being skipped exactly when `raw = 1.0` (the fade's starting
value); if `raw ≤ 0.08` the next state is `Turning(mode)`.  The long-wait
flag is untouched. -/
theorem C1_fade_step (mode : Mode) (raw : ℚ) (hour : ℕ) (lw : Bool) :
    machineStep hour lw (State.Fading mode raw) =
      if raw > 2/25 then
        { state := State.SetColourThen
            ((match mode with | Mode.On => 1 - raw | Mode.Off => raw) * (1/5))
            (State.Fading mode (raw * (1/5))),
          long_wait := lw,
          events := if raw = 1 then [] else [Event.sleepMillis 80] }
      else
        { state := State.Turning mode, long_wait := lw, events := [] } := by
  by_cases hgt : raw > 2/25 <;> by_cases hone : raw = 1 <;>
    simp [machineStep, hgt, hone]

/-- C2: Idle schedule rule — from `Idle(mode)`, the step first sleeps the
idle wait (3 hours when the long-wait flag is set, else 5 minutes), clears
the flag, reads the local hour `h`, and then: for `8 ≤ h < 18` it becomes
`Fading(On, 1.0)` when the mode is `Off`, and `Turning(On)` after a further
5-minute re-arm sleep when the mode is `On`; for `h ≥ 18` it becomes
`Fading(Off, 1.0)` when the mode is `On`, and `Turning(Off)` after the
re-arm sleep when the mode is `Off`; for `h < 8` it becomes `Turning(mode)`
after the re-arm sleep. -/
theorem C2_idle_schedule (mode : Mode) (h : ℕ) (lw : Bool) :
    machineStep h lw (State.Idle mode) =
      { state :=
          if 8 ≤ h ∧ h < 18 then
            if mode = Mode.Off then State.Fading Mode.On 1 else State.Turning Mode.On
          else if 18 ≤ h then
            if mode = Mode.On then State.Fading Mode.Off 1 else State.Turning Mode.Off
          else State.Turning mode,
        long_wait := false,
        events :=
          (if lw then [Event.sleepMillis 10800000] else [Event.sleepMillis 300000]) ++
          (if (8 ≤ h ∧ h < 18 ∧ mode = Mode.On) ∨ (18 ≤ h ∧ mode = Mode.Off) ∨ h < 8
           then [Event.sleepMillis 300000] else []) } := by
  rcases mode with _ | _ <;> rcases lw with _ | _
  all_goals
  · by_cases hA : 8 ≤ h ∧ h < 18
    · have hB : ¬ 18 ≤ h := by omega
      have h8 : ¬ h < 8 := by omega
      simp [machineStep, hA, hB, h8]
    · by_cases hB : 18 ≤ h
      · have h8 : ¬ h < 8 := by omega
        simp [machineStep, hA, hB, h8]
      · have h8 : h < 8 := by omega
        simp [machineStep, hA, hB, h8]

/-- C6: Fade convergence — starting from `Fading(mode, 1.0)`, iterating the
transition rule reaches `Turning(mode)` after finitely many steps (exactly 5:
the ramp takes the values 1, 0.2, 0.04 and the fade branch is left as soon as
the ramp is ≤ 0.08), for every hour and long-wait flag. -/
theorem C6_fade_convergence (mode : Mode) (hour : ℕ) (lw : Bool) :
    (machineNext hour)^[5] (State.Fading mode 1, lw) = (State.Turning mode, lw) := by
  rcases mode with _ | _ <;> rcases lw with _ | _ <;>
    simp [machineNext, machineStep] <;> norm_num

/-! ## `src/auda0_e6k5_0101_dram.rs` — the register-bus DRAM driver -/

namespace I2cDram

/-- One SMBus transaction issued by `I2cDram` (src/auda0_e6k5_0101_dram.rs):
the `i2c_linux` primitives the driver calls, with their payloads.  Read
operations record that the read happened; the byte a read returns is supplied
by the device model `dev` below. -/
inductive Op
  | set_slave_address (addr : ℕ)
  | read_byte
  | read_byte_data (cmd : ℕ)
  | write_word_data (cmd w : ℕ)
  | write_byte_data (cmd v : ℕ)
  | write_block_data (cmd : ℕ) (data : List ℕ)
deriving DecidableEq, Repr

/-- The 16-bit word `((reg << 8) & 0xFF00) | ((reg >> 8) & 0x00FF)` (the
byte-swapped register address) computed on a `u16` in `register_read`,
`register_write` and `register_write_block`; the `u16` left shift wraps
modulo 2^16. -/
def reg_word (reg : ℕ) : ℕ :=
  (((reg <<< 8) % 65536) &&& 0xFF00) ||| ((reg >>> 8) &&& 0x00FF)

/-- Transaction trace of `I2cDram::register_read(reg)`
(src/auda0_e6k5_0101_dram.rs:12-15). -/
def register_read_ops (reg : ℕ) : List Op :=
  [Op.write_word_data 0x0 (reg_word reg), Op.read_byte_data 0x81]

/-- Transaction trace of `I2cDram::register_write(reg, val)`
(src/auda0_e6k5_0101_dram.rs:17-21). -/
def register_write_ops (reg val : ℕ) : List Op :=
  [Op.write_word_data 0x0 (reg_word reg), Op.write_byte_data 0x01 val]

/-- Transaction trace of `I2cDram::register_write_block(reg, data)`
(src/auda0_e6k5_0101_dram.rs:23-27). -/
def register_write_block_ops (reg : ℕ) (data : List ℕ) : List Op :=
  [Op.write_word_data 0x0 (reg_word reg), Op.write_block_data 0x03 data]

/-- Transaction trace of `I2cDram::set_led_colour(r, g, b)`
(src/auda0_e6k5_0101_dram.rs:58-68): for every configured address, select it,
re-issue the two enable-register writes, then block-write each LED's colour
bytes.  The data block written is `&[r, b, g]` — exactly as in the source. -/
def set_led_colour (addresses : List ℕ) (led_count : ℕ) (r g b : ℕ) : List Op :=
  addresses.flatMap fun address =>
    Op.set_slave_address address ::
      (register_write_ops 0x8020 1 ++ register_write_ops 0x80A0 1 ++
        (List.range led_count).flatMap fun i =>
          register_write_block_ops (0x8100 + 3 * i) [r, b, g])

/-- The fixed probe registers `0xAD..0xB0` read during construction
(src/auda0_e6k5_0101_dram.rs:35). -/
def probe_regs : List ℕ := [0xAD, 0xAE, 0xAF]

/-- The device model for construction: `dev a c` is the byte an
`smbus_read_byte_data(c)` returns while slave address `a` is selected.  The
embedding assumes an error-free transport (the claim's scope); each
(address, command) pair has a fixed response. -/
def ProbeDev : Type := ℕ → ℕ → ℕ

/-- The probe loop `for i in 0xAD..0xB0 { ... }` of `I2cDram::new`
(src/auda0_e6k5_0101_dram.rs:35-40) over a list of probe registers: returns
the reads actually performed (stopping at the first mismatch) and whether all
probes matched `i - 0xA0`. -/
def probe_loop (dev : ProbeDev) (a : ℕ) : List ℕ → List Op × Bool
  | [] => ([], true)
  | i :: rest =>
      if dev a i = i - 0xA0 then
        ((Op.read_byte_data i) :: (probe_loop dev a rest).1, (probe_loop dev a rest).2)
      else ([Op.read_byte_data i], false)

/-- The per-address part of `I2cDram::new`'s loop
(src/auda0_e6k5_0101_dram.rs:31-43): select the address, presence-probe with
`smbus_read_byte`, run the probe loop; on success write the two enable
registers, on the first mismatch return immediately (`Err("bad dram")`). -/
def init_addr (dev : ProbeDev) (a : ℕ) : List Op × Bool :=
  if (probe_loop dev a probe_regs).2 then
    (Op.set_slave_address a :: Op.read_byte :: (probe_loop dev a probe_regs).1 ++
       register_write_ops 0x8020 1 ++ register_write_ops 0x80A0 1, true)
  else
    (Op.set_slave_address a :: Op.read_byte :: (probe_loop dev a probe_regs).1, false)

/-- The `for address in &addresses` loop of `I2cDram::new`
(src/auda0_e6k5_0101_dram.rs:31-43): stops at the first failing address. -/
def init_loop (dev : ProbeDev) : List ℕ → List Op × Bool
  | [] => ([], true)
  | a :: rest =>
      if (init_addr dev a).2 then
        ((init_addr dev a).1 ++ (init_loop dev rest).1, (init_loop dev rest).2)
      else ((init_addr dev a).1, false)

/-- The configuration-table read of `I2cDram::new`
(src/auda0_e6k5_0101_dram.rs:45-48): 64 register reads at `0x1C00 + i`. -/
def config_ops : List Op :=
  (List.range 64).flatMap fun i => register_read_ops (0x1C00 + i)

/-- `I2cDram::new(addresses)` (src/auda0_e6k5_0101_dram.rs:29-56), as the
pair of its transaction trace and its outcome: `true` = `Ok(...)`, `false` =
the identification error `Err(anyhow!("bad dram"))`. -/
def new_run (dev : ProbeDev) (addresses : List ℕ) : List Op × Bool :=
  if (init_loop dev addresses).2 then ((init_loop dev addresses).1 ++ config_ops, true)
  else ((init_loop dev addresses).1, false)

/-- An address all of whose probe registers read back `i - 0xA0`. -/
def good_addr (dev : ProbeDev) (a : ℕ) : Bool :=
  probe_regs.all fun i => dev a i == i - 0xA0

/-- C3: RegisterBus channel order — the trace of
`I2cDram::set_led_colour(r, g, b)` is, for every configured address: select
the address, write the two enable registers `0x8020` and `0x80A0`, then for
every LED index `i < led_count` block-write exactly the 3 bytes
`[r, b, g]` (red, blue, green: the last two channels swapped relative to the
input triple) to register `0x8100 + 3·i`. -/
theorem C3_channel_order (addresses : List ℕ) (led_count r g b : ℕ) :
    set_led_colour addresses led_count r g b =
      addresses.flatMap fun address =>
        [Op.set_slave_address address,
         Op.write_word_data 0x0 (reg_word 0x8020), Op.write_byte_data 0x01 1,
         Op.write_word_data 0x0 (reg_word 0x80A0), Op.write_byte_data 0x01 1] ++
        (List.range led_count).flatMap fun i =>
          [Op.write_word_data 0x0 (reg_word (0x8100 + 3 * i)),
           Op.write_block_data 0x03 [r, b, g]] := by
  simp [set_led_colour, register_write_ops, register_write_block_ops]

/-- The probe loop reads the matching probe registers in order, then the
first mismatching one (if any), and succeeds exactly when all match. -/
theorem probe_loop_spec (dev : ProbeDev) (a : ℕ) (l : List ℕ) :
    probe_loop dev a l =
      ((l.takeWhile fun i => dev a i == i - 0xA0).map Op.read_byte_data ++
         ((l.dropWhile fun i => dev a i == i - 0xA0).take 1).map Op.read_byte_data,
       l.all fun i => dev a i == i - 0xA0) := by
  induction l with
  | nil => simp [probe_loop]
  | cons i rest ih =>
      by_cases hm : dev a i = i - 0xA0 <;>
        simp [probe_loop, hm, List.takeWhile_cons, List.dropWhile_cons, ih]

/-- `init_addr` succeeds exactly on good addresses. -/
theorem init_addr_snd (dev : ProbeDev) (a : ℕ) :
    (init_addr dev a).2 = good_addr dev a := by
  rw [init_addr, probe_loop_spec]
  cases hg : (probe_regs.all fun i => dev a i == i - 0xA0) <;>
    simp [good_addr, hg]

/-- The per-address trace on a good address: presence probe, all three probe
reads, then the two enable-register writes. -/
theorem init_addr_fst_good (dev : ProbeDev) (a : ℕ) (hg : good_addr dev a = true) :
    (init_addr dev a).1 =
      [Op.set_slave_address a, Op.read_byte] ++ probe_regs.map Op.read_byte_data ++
        register_write_ops 0x8020 1 ++ register_write_ops 0x80A0 1 := by
  rw [init_addr, probe_loop_spec]
  have hall : (probe_regs.all fun i => dev a i == i - 0xA0) = true := hg
  rw [List.takeWhile_eq_self_iff.mpr, List.dropWhile_eq_nil_iff.mpr] <;>
    simp_all [List.all_eq_true]

/-- The per-address trace on a bad address: presence probe, the probe reads
up to and including the first mismatching register, and nothing else —
in particular no register write. -/
theorem init_addr_fst_bad (dev : ProbeDev) (a : ℕ) (hg : good_addr dev a = false) :
    (init_addr dev a).1 =
      [Op.set_slave_address a, Op.read_byte] ++
        (probe_regs.takeWhile fun i => dev a i == i - 0xA0).map Op.read_byte_data ++
        ((probe_regs.dropWhile fun i => dev a i == i - 0xA0).take 1).map
          Op.read_byte_data := by
  rw [init_addr, probe_loop_spec]
  have hall : (probe_regs.all fun i => dev a i == i - 0xA0) = false := hg
  simp [hall]

/-- The whole initialisation loop succeeds exactly when every address is
good. -/
theorem init_loop_snd (dev : ProbeDev) (l : List ℕ) :
    (init_loop dev l).2 = l.all (good_addr dev) := by
  induction l with
  | nil => simp [init_loop]
  | cons a rest ih =>
      by_cases hg : good_addr dev a = true <;>
        simp [init_loop, init_addr_snd, hg, ih]

/-- On failure, the initialisation trace is the full traces of the good
prefix of addresses followed by the truncated trace of the first bad
address. -/
theorem init_loop_fst_fail (dev : ProbeDev) (l : List ℕ)
    (hfail : l.all (good_addr dev) = false) :
    (init_loop dev l).1 =
      (l.takeWhile (good_addr dev)).flatMap (fun a => (init_addr dev a).1) ++
        (init_addr dev ((l.dropWhile (good_addr dev)).headI)).1 := by
  induction l with
  | nil => simp at hfail
  | cons a rest ih =>
      by_cases hg : good_addr dev a = true
      · have hrest : rest.all (good_addr dev) = false := by simp_all
        simp [init_loop, init_addr_snd, hg, ih hrest, List.takeWhile_cons,
          List.dropWhile_cons]
      · have hg' : good_addr dev a = false := by simp_all
        simp [init_loop, init_addr_snd, hg', List.takeWhile_cons,
          List.dropWhile_cons]

/-- The outcome of `new_run` is that of the initialisation loop: success
exactly when every configured address is good. -/
theorem new_run_snd (dev : ProbeDev) (addresses : List ℕ) :
    (new_run dev addresses).2 = addresses.all (good_addr dev) := by
  rw [new_run, ← init_loop_snd dev addresses]
  cases h : (init_loop dev addresses).2 <;> simp [h]

/-- The first element surviving `dropWhile` falsifies the predicate. -/
theorem headI_dropWhile_not {α : Type} [Inhabited α] (p : α → Bool) :
    ∀ l : List α, l.dropWhile p ≠ [] → p ((l.dropWhile p).headI) = false
  | [] => by simp
  | a :: rest => by
      intro hne
      rw [List.dropWhile_cons] at hne ⊢
      cases hp : p a with
      | false => simp [hp]
      | true =>
          simp only [hp, if_true] at hne ⊢
          exact headI_dropWhile_not p rest hne

/-- C7: RegisterBus construction validation — `I2cDram::new` returns the
identification error `"bad dram"` exactly when some configured address has a
probe register among `0xAD, 0xAE, 0xAF` that does not read back
`register − 0xA0` (the transport is modelled error-free, the claim's
stated scope); and in that case the transaction trace stops at the first
mismatching probe byte: it consists of the complete per-address traces of
the good addresses preceding the first bad one, then — for the first bad
address — only the address select, the presence probe and the probe reads up
to and including the first mismatch.  No further register write is issued:
the tail after the good prefix contains no write operation at all. -/
theorem C7_new_validation (dev : ProbeDev) (addresses : List ℕ) :
    ((new_run dev addresses).2 = false ↔
       ∃ a ∈ addresses, ∃ i ∈ probe_regs, dev a i ≠ i - 0xA0) ∧
    ((new_run dev addresses).2 = false →
       (new_run dev addresses).1 =
         (addresses.takeWhile (good_addr dev)).flatMap (fun a =>
           [Op.set_slave_address a, Op.read_byte] ++
             probe_regs.map Op.read_byte_data ++
             register_write_ops 0x8020 1 ++ register_write_ops 0x80A0 1) ++
         ([Op.set_slave_address ((addresses.dropWhile (good_addr dev)).headI),
           Op.read_byte] ++
           (probe_regs.takeWhile fun i =>
               dev ((addresses.dropWhile (good_addr dev)).headI) i == i - 0xA0).map
             Op.read_byte_data ++
           ((probe_regs.dropWhile fun i =>
               dev ((addresses.dropWhile (good_addr dev)).headI) i == i - 0xA0).take
             1).map Op.read_byte_data)) := by
  constructor
  · rw [new_run_snd, List.all_eq_false]
    constructor
    · rintro ⟨a, ha, hbad⟩
      refine ⟨a, ha, ?_⟩
      rw [good_addr, List.all_eq_true] at hbad
      push_neg at hbad
      obtain ⟨i, hi, hne⟩ := hbad
      exact ⟨i, hi, by simpa using hne⟩
    · rintro ⟨a, ha, i, hi, hne⟩
      refine ⟨a, ha, ?_⟩
      rw [good_addr, List.all_eq_true]
      push_neg
      exact ⟨i, hi, by simpa using hne⟩
  · intro hfail
    have hall : addresses.all (good_addr dev) = false := by
      rw [← new_run_snd dev addresses]; exact hfail
    have hfl : (init_loop dev addresses).2 = false := by
      rw [init_loop_snd]; exact hall
    have hne : addresses.dropWhile (good_addr dev) ≠ [] := by
      intro hnil
      have hsplit := List.takeWhile_append_dropWhile (p := good_addr dev) (l := addresses)
      rw [hnil, List.append_nil] at hsplit
      rw [← hsplit, List.all_eq_false] at hall
      obtain ⟨a, ha, hbad⟩ := hall
      exact hbad (List.mem_takeWhile_imp ha)
    have hbadhead := headI_dropWhile_not (good_addr dev) addresses hne
    rw [new_run, if_neg (by simp [hfl]), init_loop_fst_fail dev addresses hall]
    rw [init_addr_fst_bad dev _ hbadhead]
    congr 1
    apply List.flatMap_congr
    intro a ha
    exact init_addr_fst_good dev a (List.mem_takeWhile_imp ha)

end I2cDram

/-! ## `src/gigabyte_rgb_fusion2_usb.rs` — the packet (HID) driver -/

namespace Fusion2Argb

/-- `const RID: u8 = 0xCC` — the constant report identifier. -/
def RID : ℕ := 0xCC

/-- `const HDR_DLED1_RGB: u8 = 0x58`. -/
def HDR_DLED1_RGB : ℕ := 0x58

/-- `const HDR_DLED2_RGB: u8 = 0x59`. -/
def HDR_DLED2_RGB : ℕ := 0x59

/-- `const HDR_DLED3_RGB: u8 = 0x62`. -/
def HDR_DLED3_RGB : ℕ := 0x62

/-- `const LED3: u8 = 0x2`. -/
def LED3 : ℕ := 0x2

/-- `const LEDS_PER_PACKET: usize = 19`. -/
def LEDS_PER_PACKET : ℕ := 19

/-- The closure `le32` of `parse_byteorders`
(src/gigabyte_rgb_fusion2_usb.rs:77-82): a 32-bit little-endian read of four
report bytes.  The report `rep: &[u8; 64]` is modelled as a function from
byte index to byte value (only indices < 64 are ever read). -/
def le32 (rep : ℕ → ℕ) (i : ℕ) : ℕ :=
  rep i ||| (rep (i + 1) <<< 8) ||| (rep (i + 2) <<< 16) ||| (rep (i + 3) <<< 24)

/-- The closure `to_trip` of `parse_byteorders`
(src/gigabyte_rgb_fusion2_usb.rs:85-91). -/
def to_trip (bo : ℕ) : ℕ × ℕ × ℕ :=
  ((bo >>> 16) &&& 0xFF, (bo >>> 8) &&& 0xFF, bo &&& 0xFF)

/-- The closure `valid` of `parse_byteorders`
(src/gigabyte_rgb_fusion2_usb.rs:94-95). -/
def valid_trip : ℕ × ℕ × ℕ → Bool :=
  fun (r, g, b) => decide (r ≤ 2) && decide (g ≤ 2) && decide (b ≤ 2) &&
    (r != g) && (g != b) && (r != b)

/-- `Fusion2Argb::parse_byteorders(rep)`
(src/gigabyte_rgb_fusion2_usb.rs:76-100): extract the two byte-order triples
from report offsets 44 and 48 and fall back to the identity order for an
invalid one. -/
def parse_byteorders (rep : ℕ → ℕ) : (ℕ × ℕ × ℕ) × (ℕ × ℕ × ℕ) :=
  let bo1 := le32 rep 44
  let bo2 := le32 rep 48
  let b1 := to_trip bo1
  let b2 := to_trip bo2
  (if valid_trip b1 then b1 else (0, 1, 2),
   if valid_trip b2 then b2 else (0, 1, 2))

/-- The source's Bool validity test agrees with the spec-level reading
"all three entries in {0, 1, 2} and mutually distinct". -/
theorem valid_trip_iff (t : ℕ × ℕ × ℕ) :
    valid_trip t = true ↔
      (t.1 < 3 ∧ t.2.1 < 3 ∧ t.2.2 < 3 ∧
        t.1 ≠ t.2.1 ∧ t.2.1 ≠ t.2.2 ∧ t.1 ≠ t.2.2) := by
  obtain ⟨r, g, b⟩ := t
  simp only [valid_trip, Bool.and_eq_true, decide_eq_true_eq, bne_iff_ne]
  omega

/-- The identity triple is valid. -/
theorem valid_trip_id : valid_trip (0, 1, 2) = true := by decide

/-- C4: Byte-order permutation validator — for each of the two 3-byte
triples extracted from the feature report (offsets 44 and 48),
`parse_byteorders` returns the triple unchanged exactly when all three
entries are in {0, 1, 2} and mutually distinct, and otherwise (repeated or
out-of-range entry) it returns the identity order (0, 1, 2): each component
of the result is either the extracted triple itself or (0, 1, 2). -/
theorem C4_byteorder_validator (rep : ℕ → ℕ) :
    ((parse_byteorders rep).1 = to_trip (le32 rep 44) ↔
       ((to_trip (le32 rep 44)).1 < 3 ∧ (to_trip (le32 rep 44)).2.1 < 3 ∧
        (to_trip (le32 rep 44)).2.2 < 3 ∧
        (to_trip (le32 rep 44)).1 ≠ (to_trip (le32 rep 44)).2.1 ∧
        (to_trip (le32 rep 44)).2.1 ≠ (to_trip (le32 rep 44)).2.2 ∧
        (to_trip (le32 rep 44)).1 ≠ (to_trip (le32 rep 44)).2.2)) ∧
    ((parse_byteorders rep).1 = to_trip (le32 rep 44) ∨
       (parse_byteorders rep).1 = (0, 1, 2)) ∧
    ((parse_byteorders rep).2 = to_trip (le32 rep 48) ↔
       ((to_trip (le32 rep 48)).1 < 3 ∧ (to_trip (le32 rep 48)).2.1 < 3 ∧
        (to_trip (le32 rep 48)).2.2 < 3 ∧
        (to_trip (le32 rep 48)).1 ≠ (to_trip (le32 rep 48)).2.1 ∧
        (to_trip (le32 rep 48)).2.1 ≠ (to_trip (le32 rep 48)).2.2 ∧
        (to_trip (le32 rep 48)).1 ≠ (to_trip (le32 rep 48)).2.2)) ∧
    ((parse_byteorders rep).2 = to_trip (le32 rep 48) ∨
       (parse_byteorders rep).2 = (0, 1, 2)) := by
  have main : ∀ b : ℕ × ℕ × ℕ,
      ((if valid_trip b then b else ((0 : ℕ), (1 : ℕ), (2 : ℕ))) = b ↔
        (b.1 < 3 ∧ b.2.1 < 3 ∧ b.2.2 < 3 ∧
          b.1 ≠ b.2.1 ∧ b.2.1 ≠ b.2.2 ∧ b.1 ≠ b.2.2)) ∧
      ((if valid_trip b then b else ((0 : ℕ), (1 : ℕ), (2 : ℕ))) = b ∨
        (if valid_trip b then b else ((0 : ℕ), (1 : ℕ), (2 : ℕ))) = (0, 1, 2)) := by
    intro b
    by_cases hv : valid_trip b = true
    · rw [if_pos hv]
      exact ⟨⟨fun _ => (valid_trip_iff b).mp hv, fun _ => rfl⟩, Or.inl rfl⟩
    · rw [if_neg hv]
      constructor
      · constructor
        · intro hid
          rw [← hid] at hv
          exact absurd valid_trip_id hv
        · intro hcond
          exact absurd ((valid_trip_iff b).mpr hcond) hv
      · exact Or.inr rfl
  exact ⟨(main (to_trip (le32 rep 44))).1, (main (to_trip (le32 rep 44))).2,
         (main (to_trip (le32 rep 48))).1, (main (to_trip (le32 rep 48))).2⟩

/-- One packet built by the `while leds_left > 0` loop of
`Fusion2Argb::stream_strip_solid` (src/gigabyte_rgb_fusion2_usb.rs:134-155):
the header fields written into the 64-byte buffer (`buf[2]`, `buf[3]`,
`buf[4]`), the number of LEDs it carries, and the complete list of
(buffer index, byte) assignments the iteration performs. -/
structure StreamPkt where
  boffset_lo : ℕ
  boffset_hi : ℕ
  bcount : ℕ
  leds_in_pkt : ℕ
  writes : List (ℕ × ℕ)
deriving DecidableEq, Repr, Inhabited

/-- The buffer assignments of one loop iteration of `stream_strip_solid`
(src/gigabyte_rgb_fusion2_usb.rs:138-150), in program order:
`buf[0] = RID`, `buf[1] = hdr`, `buf[2] = offset & 0xFF`,
`buf[3] = (offset >> 8) & 0xFF`, `buf[4] = bcount`, then for each LED `i`
with `base = 5 + i*3`: `buf[base+bo_r] = r`, `buf[base+bo_g] = g`,
`buf[base+bo_b] = b`. -/
def packet_writes (hdr : ℕ) (bo rgb : ℕ × ℕ × ℕ)
    (offset_bytes leds_in_pkt : ℕ) : List (ℕ × ℕ) :=
  [(0, RID), (1, hdr), (2, offset_bytes &&& 0xFF),
   (3, (offset_bytes >>> 8) &&& 0xFF), (4, (leds_in_pkt * 3) % 256)] ++
    (List.range leds_in_pkt).flatMap fun i =>
      [(5 + i * 3 + bo.1, rgb.1), (5 + i * 3 + bo.2.1, rgb.2.1),
       (5 + i * 3 + bo.2.2, rgb.2.2)]

/-- The packet one loop iteration of `stream_strip_solid` sends:
`bcount = (leds_in_pkt * 3) as u8` (the cast is the `% 256`; the value never
exceeds 57), `boffset_lo/hi` are the two offset bytes. -/
def mk_packet (hdr : ℕ) (bo rgb : ℕ × ℕ × ℕ)
    (offset_bytes leds_in_pkt : ℕ) : StreamPkt :=
  { boffset_lo := offset_bytes &&& 0xFF,
    boffset_hi := (offset_bytes >>> 8) &&& 0xFF,
    bcount := (leds_in_pkt * 3) % 256,
    leds_in_pkt := leds_in_pkt,
    writes := packet_writes hdr bo rgb offset_bytes leds_in_pkt }

/-- The `while leds_left > 0` loop of `stream_strip_solid`
(src/gigabyte_rgb_fusion2_usb.rs:134-155).  The loop is translated with a
structural fuel argument so that it evaluates in the kernel; fuel
`leds_left` always suffices because every iteration sends at least one LED
(`stream_loop_fuel` below makes the fuel irrelevant). -/
def stream_loop (hdr : ℕ) (bo rgb : ℕ × ℕ × ℕ) : ℕ → ℕ → ℕ → List StreamPkt
  | 0, _, _ => []
  | fuel + 1, offset_bytes, leds_left =>
      if leds_left = 0 then []
      else
        let leds_in_pkt := min leds_left LEDS_PER_PACKET
        mk_packet hdr bo rgb offset_bytes leds_in_pkt ::
          stream_loop hdr bo rgb fuel (offset_bytes + leds_in_pkt * 3)
            (leds_left - leds_in_pkt)

/-- `stream_strip_solid` from an arbitrary starting byte offset (the source
always starts at `offset_bytes = 0`; the generalisation is what the loop
lemmas below recurse on). -/
def stream_from (hdr : ℕ) (bo rgb : ℕ × ℕ × ℕ)
    (offset_bytes num_leds : ℕ) : List StreamPkt :=
  stream_loop hdr bo rgb num_leds offset_bytes num_leds

/-- `Fusion2Argb::stream_strip_solid(dev, hdr, bo, num_leds, rgb)`
(src/gigabyte_rgb_fusion2_usb.rs:124-158), as the list of packets sent, in
order. -/
def stream_strip_solid (hdr : ℕ) (bo : ℕ × ℕ × ℕ) (num_leds : ℕ)
    (rgb : ℕ × ℕ × ℕ) : List StreamPkt :=
  stream_from hdr bo rgb 0 num_leds

/-- The fuel does not matter once it is at least `leds_left`. -/
theorem stream_loop_fuel (hdr : ℕ) (bo rgb : ℕ × ℕ × ℕ) :
    ∀ f f' off n, n ≤ f → n ≤ f' →
      stream_loop hdr bo rgb f off n = stream_loop hdr bo rgb f' off n := by
  intro f
  induction f with
  | zero =>
      intro f' off n hf hf'
      have hn : n = 0 := by omega
      subst hn
      cases f' <;> simp [stream_loop]
  | succ f ih =>
      intro f' off n hf hf'
      cases f' with
      | zero =>
          have hn : n = 0 := by omega
          subst hn
          simp [stream_loop]
      | succ f'' =>
          by_cases hn : n = 0
          · subst hn; simp [stream_loop]
          · simp only [stream_loop, if_neg hn]
            congr 1
            have h19 : (1 : ℕ) ≤ min n LEDS_PER_PACKET := by
              simp only [LEDS_PER_PACKET]; omega
            exact ih f'' _ _ (by omega) (by omega)

/-- One-step unfolding of `stream_from`. -/
theorem stream_from_eq (hdr : ℕ) (bo rgb : ℕ × ℕ × ℕ) (off n : ℕ) :
    stream_from hdr bo rgb off n =
      if n = 0 then []
      else
        mk_packet hdr bo rgb off (min n LEDS_PER_PACKET) ::
          stream_from hdr bo rgb (off + (min n LEDS_PER_PACKET) * 3)
            (n - min n LEDS_PER_PACKET) := by
  by_cases hn : n = 0
  · subst hn; simp [stream_from, stream_loop]
  · rw [if_neg hn]
    obtain ⟨m, rfl⟩ : ∃ m, n = m + 1 := ⟨n - 1, by omega⟩
    show stream_loop hdr bo rgb (m + 1) off (m + 1) = _
    simp only [stream_loop, if_neg hn]
    congr 1
    exact stream_loop_fuel hdr bo rgb m _ _ _
      (by simp only [LEDS_PER_PACKET]; omega) (le_refl _)

/-- The number of packets is `⌈num_leds / 19⌉ = (num_leds + 18) / 19`. -/
theorem stream_from_length (hdr : ℕ) (bo rgb : ℕ × ℕ × ℕ) :
    ∀ n off, (stream_from hdr bo rgb off n).length = (n + 18) / 19 := by
  intro n
  induction n using Nat.strong_induction_on with
  | _ n ih =>
      intro off
      rw [stream_from_eq]
      by_cases hn : n = 0
      · subst hn; simp
      · rw [if_neg hn]
        simp only [List.length_cons, LEDS_PER_PACKET]
        rw [ih (n - min n 19) (by omega)]
        omega

/-- The per-packet LED counts sum to `num_leds`. -/
theorem stream_from_sum (hdr : ℕ) (bo rgb : ℕ × ℕ × ℕ) :
    ∀ n off,
      ((stream_from hdr bo rgb off n).map (fun p => p.leds_in_pkt)).sum = n := by
  intro n
  induction n using Nat.strong_induction_on with
  | _ n ih =>
      intro off
      rw [stream_from_eq]
      by_cases hn : n = 0
      · subst hn; simp
      · rw [if_neg hn]
        simp only [List.map_cons, List.sum_cons, mk_packet, LEDS_PER_PACKET]
        rw [ih (n - min n 19) (by omega)]
        omega

/-- Every packet carries at most 19 LEDs, and its `bcount` byte is 3 times
its LED count (the `as u8` cast never truncates: `3 * 19 = 57 < 256`). -/
theorem stream_from_mem (hdr : ℕ) (bo rgb : ℕ × ℕ × ℕ) :
    ∀ n off p, p ∈ stream_from hdr bo rgb off n →
      p.leds_in_pkt ≤ 19 ∧ p.bcount = 3 * p.leds_in_pkt := by
  intro n
  induction n using Nat.strong_induction_on with
  | _ n ih =>
      intro off p hp
      rw [stream_from_eq] at hp
      by_cases hn : n = 0
      · subst hn; simp at hp
      · rw [if_neg hn] at hp
        rcases List.mem_cons.mp hp with hhead | htail
        · subst hhead
          simp only [mk_packet, LEDS_PER_PACKET]
          omega
        · exact ih (n - min n LEDS_PER_PACKET)
            (by simp only [LEDS_PER_PACKET]; omega) _ p htail

/-- The packet at index `j` starts at byte offset `off + 57 * j` and carries
`min (n - 19 * j) 19` LEDs: every packet before it was full. -/
theorem stream_from_getD (hdr : ℕ) (bo rgb : ℕ × ℕ × ℕ) :
    ∀ j n off, j < (stream_from hdr bo rgb off n).length →
      (stream_from hdr bo rgb off n).getD j default =
        mk_packet hdr bo rgb (off + 57 * j) (min (n - 19 * j) LEDS_PER_PACKET) := by
  intro j
  induction j with
  | zero =>
      intro n off h
      have hn : n ≠ 0 := by
        intro h0; subst h0
        rw [stream_from_length] at h
        omega
      rw [stream_from_eq, if_neg hn]
      simp
  | succ j ih =>
      intro n off h
      have hlen := stream_from_length hdr bo rgb n off
      have hn : n ≠ 0 := by intro h0; subst h0; omega
      have hgt : 19 < n := by omega
      have hmin : min n LEDS_PER_PACKET = 19 := by
        simp only [LEDS_PER_PACKET]; omega
      rw [stream_from_eq, if_neg hn, hmin]
      simp only [List.getD_cons_succ]
      rw [ih (n - 19) (off + 19 * 3)
        (by rw [stream_from_length]; rw [stream_from_length] at h; omega)]
      have harg1 : off + 19 * 3 + 57 * j = off + 57 * (j + 1) := by ring
      have harg2 : n - 19 - 19 * j = n - 19 * (j + 1) := by omega
      rw [harg1, harg2]

/-- The LED counts of the first `j` packets (for `j` below the packet count)
sum to `19 * j`: all of them are full packets. -/
theorem stream_from_take_sum (hdr : ℕ) (bo rgb : ℕ × ℕ × ℕ) :
    ∀ j n off, j < (stream_from hdr bo rgb off n).length →
      (((stream_from hdr bo rgb off n).take j).map (fun p => p.leds_in_pkt)).sum
        = 19 * j := by
  intro j
  induction j with
  | zero => intro n off _; simp
  | succ j ih =>
      intro n off h
      have hlen := stream_from_length hdr bo rgb n off
      have hn : n ≠ 0 := by intro h0; subst h0; omega
      have hgt : 19 < n := by omega
      have hmin : min n LEDS_PER_PACKET = 19 := by
        simp only [LEDS_PER_PACKET]; omega
      rw [stream_from_eq, if_neg hn, hmin]
      simp only [List.take_succ_cons, List.map_cons, List.sum_cons, mk_packet]
      rw [ih (n - 19) (off + 19 * 3)
        (by rw [stream_from_length]; rw [stream_from_length] at h; omega)]
      omega

/-- Recombining the two offset bytes `m & 0xFF` and `(m >> 8) & 0xFF` as a
16-bit little-endian value yields `m % 2^16`. -/
theorem lohi_eq_mod (m : ℕ) :
    (m &&& 0xFF) + 256 * ((m >>> 8) &&& 0xFF) = m % 65536 := by
  have h1 : m &&& 0xFF = m % 256 := by
    have := Nat.and_pow_two_sub_one_eq_mod m 8
    norm_num at this
    exact this
  have h2 : (m >>> 8) &&& 0xFF = m / 256 % 256 := by
    have h := Nat.and_pow_two_sub_one_eq_mod (m >>> 8) 8
    have hs : m >>> 8 = m / 256 := by
      rw [Nat.shiftRight_eq_div_pow]
    rw [hs] at h
    norm_num at h
    rw [hs]
    exact h
  rw [h1, h2]
  omega

/-- C5 (amended): Packet chunking — for every LED count `N`,
`stream_strip_solid` sends exactly `⌈N/19⌉` packets, each carrying at most
19 LEDs, with per-packet LED counts summing to `N` and each packet's byte
count field equal to 3 times its LED count; each packet's 16-bit
little-endian byte offset field equals 3 times the total number of LEDs
sent in all previous packets **reduced modulo 2^16**, and whenever
`3·N ≤ 0xFFFF` (in particular for every LED count the driver configures)
the reduction is the identity, so the offset fields are then exactly
`3 ×` previous LED totals and strictly increasing.  (The unamended claim's
exact equality fails once `3·N` overflows 16 bits; see the
counterexample.) -/
theorem C5_packet_chunking (hdr : ℕ) (bo rgb : ℕ × ℕ × ℕ) (num_leds : ℕ) :
    (stream_strip_solid hdr bo num_leds rgb).length = (num_leds + 18) / 19 ∧
    (∀ p ∈ stream_strip_solid hdr bo num_leds rgb,
       p.leds_in_pkt ≤ 19 ∧ p.bcount = 3 * p.leds_in_pkt) ∧
    ((stream_strip_solid hdr bo num_leds rgb).map (fun p => p.leds_in_pkt)).sum
      = num_leds ∧
    (∀ j, j < (stream_strip_solid hdr bo num_leds rgb).length →
       ((stream_strip_solid hdr bo num_leds rgb).getD j default).boffset_lo +
         256 * ((stream_strip_solid hdr bo num_leds rgb).getD j default).boffset_hi
         = (3 * (((stream_strip_solid hdr bo num_leds rgb).take j).map
             (fun p => p.leds_in_pkt)).sum) % 65536) ∧
    (3 * num_leds ≤ 65535 →
       ∀ j1 j2, j1 < j2 → j2 < (stream_strip_solid hdr bo num_leds rgb).length →
         ((stream_strip_solid hdr bo num_leds rgb).getD j1 default).boffset_lo +
           256 * ((stream_strip_solid hdr bo num_leds rgb).getD j1 default).boffset_hi
           < ((stream_strip_solid hdr bo num_leds rgb).getD j2 default).boffset_lo +
             256 * ((stream_strip_solid hdr bo num_leds rgb).getD j2 default).boffset_hi) := by
  simp only [stream_strip_solid]
  refine ⟨stream_from_length hdr bo rgb num_leds 0, ?_,
    stream_from_sum hdr bo rgb num_leds 0, ?_, ?_⟩
  · intro p hp
    exact stream_from_mem hdr bo rgb num_leds 0 p hp
  · intro j hj
    rw [stream_from_getD hdr bo rgb j num_leds 0 hj,
      stream_from_take_sum hdr bo rgb j num_leds 0 hj]
    simp only [mk_packet]
    rw [lohi_eq_mod]
    omega
  · intro hsmall j1 j2 hlt hj2
    have hj1 : j1 < (stream_from hdr bo rgb 0 num_leds).length :=
      lt_trans hlt hj2
    have hlen := stream_from_length hdr bo rgb num_leds 0
    rw [stream_from_getD hdr bo rgb j1 num_leds 0 hj1,
      stream_from_getD hdr bo rgb j2 num_leds 0 hj2]
    simp only [mk_packet]
    rw [lohi_eq_mod, lohi_eq_mod]
    rw [hlen] at hj2
    have h2 : 0 + 57 * j2 < 65536 := by omega
    have h1 : 0 + 57 * j1 < 65536 := by omega
    rw [Nat.mod_eq_of_lt h1, Nat.mod_eq_of_lt h2]
    omega

/-- C5, counterexample to the unamended claim: at LED count 21851 the packet
at index 1150 follows 21850 previously-sent LEDs, so the claimed offset is
`3 × 21850 = 65550`; the 16-bit field actually stored reads back as
`65550 % 2^16 = 14`. -/
theorem C5_offset_wraps_cex :
    ((stream_strip_solid 0x58 (0, 1, 2) 21851 (1, 2, 3)).getD 1150 default).boffset_lo +
      256 * ((stream_strip_solid 0x58 (0, 1, 2) 21851 (1, 2, 3)).getD 1150
        default).boffset_hi = 14 ∧
    3 * (((stream_strip_solid 0x58 (0, 1, 2) 21851 (1, 2, 3)).take 1150).map
        (fun p => p.leds_in_pkt)).sum = 65550 ∧
    (14 : ℕ) ≠ 65550 := by
  have hj : (1150 : ℕ) <
      (stream_from 0x58 (0, 1, 2) (1, 2, 3) 0 21851).length := by
    rw [stream_from_length]
    norm_num
  simp only [stream_strip_solid]
  refine ⟨?_, ?_, by norm_num⟩
  · rw [stream_from_getD _ _ _ _ _ _ hj]
    simp only [mk_packet]
    decide
  · rw [stream_from_take_sum _ _ _ _ _ _ hj]

/-- The fixed per-bus LED counts chosen in `Fusion2Argb::new`
(src/gigabyte_rgb_fusion2_usb.rs:43-45). -/
def d1_count : ℕ := 60

/-- See `d1_count`. -/
def d2_count : ℕ := 60

/-- See `d1_count`. -/
def d3_count : ℕ := 60

/-- All (buffer index, byte) assignments the four `stream_strip_solid` calls
of `Fusion2Argb::set_led_colour` (src/gigabyte_rgb_fusion2_usb.rs:163-189)
perform, in order: bus 3 with `bo2`, bus 2 with `bo2`, bus 1 with `bo1`,
then the single-LED direct write to port `LED3` with `bo1`. -/
def set_led_colour_stream_writes (bo1 bo2 : ℕ × ℕ × ℕ) (d1 d2 d3 : ℕ)
    (rgb : ℕ × ℕ × ℕ) : List (ℕ × ℕ) :=
  ((stream_strip_solid HDR_DLED3_RGB bo2 d3 rgb).flatMap fun p => p.writes) ++
  ((stream_strip_solid HDR_DLED2_RGB bo2 d2 rgb).flatMap fun p => p.writes) ++
  ((stream_strip_solid HDR_DLED1_RGB bo1 d1 rgb).flatMap fun p => p.writes) ++
  ((stream_strip_solid LED3 bo1 1 rgb).flatMap fun p => p.writes)

/-- Both byte-order triples stored by `Fusion2Argb::new` have all entries
≤ 2: a validated triple by the validity test, a rejected one because the
fallback is the identity order. -/
theorem parse_byteorders_le (rep : ℕ → ℕ) :
    ((parse_byteorders rep).1.1 ≤ 2 ∧ (parse_byteorders rep).1.2.1 ≤ 2 ∧
      (parse_byteorders rep).1.2.2 ≤ 2) ∧
    ((parse_byteorders rep).2.1 ≤ 2 ∧ (parse_byteorders rep).2.2.1 ≤ 2 ∧
      (parse_byteorders rep).2.2.2 ≤ 2) := by
  have main : ∀ b : ℕ × ℕ × ℕ,
      (if valid_trip b then b else ((0 : ℕ), (1 : ℕ), (2 : ℕ))).1 ≤ 2 ∧
      (if valid_trip b then b else ((0 : ℕ), (1 : ℕ), (2 : ℕ))).2.1 ≤ 2 ∧
      (if valid_trip b then b else ((0 : ℕ), (1 : ℕ), (2 : ℕ))).2.2 ≤ 2 := by
    intro b
    by_cases hv : valid_trip b = true
    · rw [if_pos hv]
      have := (valid_trip_iff b).mp hv
      omega
    · rw [if_neg hv]
      refine ⟨by norm_num, by norm_num, by norm_num⟩
  exact ⟨main (to_trip (le32 rep 44)), main (to_trip (le32 rep 48))⟩

/-- Every index assigned in one packet's buffer is at most 61 when the
byte-order entries are ≤ 2 and the packet carries at most 19 LEDs. -/
theorem packet_writes_idx_le (hdr : ℕ) (bo rgb : ℕ × ℕ × ℕ) (off k : ℕ)
    (hbo : bo.1 ≤ 2 ∧ bo.2.1 ≤ 2 ∧ bo.2.2 ≤ 2) (hk : k ≤ 19) :
    ∀ iv ∈ packet_writes hdr bo rgb off k, iv.1 ≤ 61 := by
  intro iv hiv
  rw [packet_writes] at hiv
  rcases List.mem_append.mp hiv with hh | ht
  · fin_cases hh <;> norm_num
  · rw [List.mem_flatMap] at ht
    obtain ⟨i, hi, hmem⟩ := ht
    rw [List.mem_range] at hi
    fin_cases hmem <;> dsimp only <;> omega

/-- Every buffer index a stream writes is at most 61, for byte orders with
all entries ≤ 2. -/
theorem stream_from_writes_le (hdr : ℕ) (bo rgb : ℕ × ℕ × ℕ)
    (hbo : bo.1 ≤ 2 ∧ bo.2.1 ≤ 2 ∧ bo.2.2 ≤ 2) :
    ∀ n off p, p ∈ stream_from hdr bo rgb off n → ∀ iv ∈ p.writes, iv.1 ≤ 61 := by
  intro n
  induction n using Nat.strong_induction_on with
  | _ n ih =>
      intro off p hp iv hiv
      rw [stream_from_eq] at hp
      by_cases hn : n = 0
      · subst hn; simp at hp
      · rw [if_neg hn] at hp
        rcases List.mem_cons.mp hp with hhead | htail
        · subst hhead
          exact packet_writes_idx_le hdr bo rgb off (min n LEDS_PER_PACKET)
            hbo (by simp only [LEDS_PER_PACKET]; omega) iv hiv
        · exact ih (n - min n LEDS_PER_PACKET)
            (by simp only [LEDS_PER_PACKET]; omega) _ p htail iv hiv

/-- C10: In-bounds packet writes — for every feature report `rep` (hence for
every `Fusion2Argb` value `new` can produce: byte orders
`parse_byteorders rep`, per-bus counts 60/60/60) and every colour, every
(buffer index, byte) assignment performed by the `stream_strip_solid` calls
of `set_led_colour` has index at most 61 < 64: the per-LED base index
`5 + 3·i` is at most 59 (at most 19 LEDs per packet) and every stored
byte-order entry is at most 2, so no out-of-bounds indexing occurs in the
64-byte packet buffer. -/
theorem C10_stream_writes_in_bounds (rep : ℕ → ℕ) (rgb : ℕ × ℕ × ℕ)
    (iv : ℕ × ℕ)
    (h : iv ∈ set_led_colour_stream_writes (parse_byteorders rep).1
      (parse_byteorders rep).2 d1_count d2_count d3_count rgb) :
    iv.1 ≤ 61 := by
  have hbo1 := (parse_byteorders_le rep).1
  have hbo2 := (parse_byteorders_le rep).2
  simp only [set_led_colour_stream_writes, stream_strip_solid,
    List.mem_append, List.mem_flatMap] at h
  rcases h with ((⟨p, hp, hiv⟩ | ⟨p, hp, hiv⟩) | ⟨p, hp, hiv⟩) | ⟨p, hp, hiv⟩
  · exact stream_from_writes_le _ _ _ hbo2 _ _ p hp iv hiv
  · exact stream_from_writes_le _ _ _ hbo2 _ _ p hp iv hiv
  · exact stream_from_writes_le _ _ _ hbo1 _ _ p hp iv hiv
  · exact stream_from_writes_le _ _ _ hbo1 _ _ p hp iv hiv

/-- C10, witness: the very first assignment of the first packet (the report
id at index 0) for the all-zero report — whose byte orders fall back to the
identity — is in bounds. -/
theorem C10_stream_writes_in_bounds_witness : ((0, 0xCC) : ℕ × ℕ).1 ≤ 61 :=
  C10_stream_writes_in_bounds (fun _ => 0) (1, 2, 3) (0, 0xCC) (by decide)

end Fusion2Argb

/-! `mod effect { pub const STATIC: u8 = 1; }`
(src/gigabyte_rgb_fusion2_usb.rs:205-207). -/
namespace effect

/-- The "static" effect type code. -/
def STATIC : ℕ := 1

end effect

/-- `struct PktEffect` (src/gigabyte_rgb_fusion2_usb.rs:209-229): the
64-byte "effect" packet's fields. -/
structure PktEffect where
  report_id : ℕ
  header : ℕ
  zone0 : ℕ
  zone1 : ℕ
  reserved0 : ℕ
  effect_type : ℕ
  max_brightness : ℕ
  min_brightness : ℕ
  color0 : ℕ
  color1 : ℕ
  period0 : ℕ
  period1 : ℕ
  period2 : ℕ
  period3 : ℕ
  effect_param0 : ℕ
  effect_param1 : ℕ
  effect_param2 : ℕ
  effect_param3 : ℕ
deriving DecidableEq, Repr

namespace PktEffect

/-- `PktEffect::blank()` (src/gigabyte_rgb_fusion2_usb.rs:253-274).  Note
`color1: 0`. -/
def blank : PktEffect :=
  { report_id := 0x00, header := 0x00, zone0 := 0, zone1 := 0,
    reserved0 := 0, effect_type := effect.STATIC, max_brightness := 255,
    min_brightness := 0, color0 := 0, color1 := 0, period0 := 0,
    period1 := 0, period2 := 0, period3 := 0, effect_param0 := 0,
    effect_param1 := 0, effect_param2 := 0, effect_param3 := 0 }

/-- `PktEffect::for_led(led_index, pid, report_id)`
(src/gigabyte_rgb_fusion2_usb.rs:232-251).  `led_index` is an `i32`; the
`as u8`/`as u32` casts become `% 256` / `toNat` (the branches only ever
shift by less than 32, so the `u32` shift needs no wrap here but is reduced
`% 2^32` exactly as the machine would). -/
def for_led (led_index : ℤ) (pid : ℕ) (report_id : ℕ) : PktEffect :=
  let pkt : PktEffect := { blank with report_id := report_id }
  if led_index < 0 then
    { pkt with header := 0x20,
               zone0 := if pid = 0x5711 then 0x07FF else 0x00FF }
  else if led_index < 8 then
    { pkt with header := (0x20 + led_index.toNat % 256) &&& 0xFF,
               zone0 := (1 <<< led_index.toNat) % 2 ^ 32 }
  else if led_index < 11 then
    { pkt with header := 0x90 + (led_index.toNat % 256 - 8),
               zone0 := (1 <<< led_index.toNat) % 2 ^ 32 }
  else
    { pkt with header := 0, zone0 := 0 }

/-- `PktEffect::with_effect_type` (src/gigabyte_rgb_fusion2_usb.rs:276-279). -/
def with_effect_type (p : PktEffect) (ty : ℕ) : PktEffect :=
  { p with effect_type := ty }

/-- `PktEffect::with_brightness` (src/gigabyte_rgb_fusion2_usb.rs:281-285). -/
def with_brightness (p : PktEffect) (maxv minv : ℕ) : PktEffect :=
  { p with max_brightness := maxv, min_brightness := minv }

/-- `PktEffect::with_color0_rgb` (src/gigabyte_rgb_fusion2_usb.rs:287-290):
`color0 = (r << 16) | (g << 8) | b` on `u32`s built from `u8`s — no
truncation for byte inputs. -/
def with_color0_rgb (p : PktEffect) (r g b : ℕ) : PktEffect :=
  { p with color0 := (r <<< 16) ||| (g <<< 8) ||| b }

/-- The `put_u16` closure of `to_bytes`
(src/gigabyte_rgb_fusion2_usb.rs:295-298); `(v >> 8) as u8` is `% 256`. -/
def put_u16 (b : List ℕ) (off v : ℕ) : List ℕ :=
  (b.set off (v &&& 0xFF)).set (off + 1) ((v >>> 8) % 256)

/-- The `put_u32` closure of `to_bytes`
(src/gigabyte_rgb_fusion2_usb.rs:299-304). -/
def put_u32 (b : List ℕ) (off v : ℕ) : List ℕ :=
  (((b.set off (v &&& 0xFF)).set (off + 1) ((v >>> 8) &&& 0xFF)).set (off + 2)
    ((v >>> 16) &&& 0xFF)).set (off + 3) ((v >>> 24) &&& 0xFF)

/-- `PktEffect::to_bytes` (src/gigabyte_rgb_fusion2_usb.rs:292-325): the
64-byte buffer, with every field placed at its fixed offset. -/
def to_bytes (p : PktEffect) : List ℕ :=
  let buf := List.replicate 64 0
  let buf := buf.set 0 p.report_id
  let buf := buf.set 1 p.header
  let buf := put_u32 buf 2 p.zone0
  let buf := put_u32 buf 6 p.zone1
  let buf := buf.set 10 p.reserved0
  let buf := buf.set 11 p.effect_type
  let buf := buf.set 12 p.max_brightness
  let buf := buf.set 13 p.min_brightness
  let buf := put_u32 buf 14 p.color0
  let buf := put_u32 buf 18 p.color1
  let buf := put_u16 buf 22 p.period0
  let buf := put_u16 buf 24 p.period1
  let buf := put_u16 buf 26 p.period2
  let buf := put_u16 buf 28 p.period3
  let buf := buf.set 30 p.effect_param0
  let buf := buf.set 31 p.effect_param1
  let buf := buf.set 32 p.effect_param2
  let buf := buf.set 33 p.effect_param3
  buf

end PktEffect

namespace Fusion2Argb

/-- The 64-byte buffer sent by `Fusion2Argb::send64(dev, a, b, c)`
(src/gigabyte_rgb_fusion2_usb.rs:60-67). -/
def send64_buf (a b c : ℕ) : List ℕ :=
  ((((List.replicate 64 0).set 0 RID).set 1 a).set 2 b).set 3 c

/-- The 64-byte buffer a stream packet's assignments produce, starting from
the zeroed buffer (`let mut buf = [0u8; 64]`). -/
def buf64_of_writes (ws : List (ℕ × ℕ)) : List ℕ :=
  ws.foldl (fun b iv => b.set iv.1 iv.2) (List.replicate 64 0)

/-- The effect mask after the two `|=` statements at the top of
`set_led_colour` (src/gigabyte_rgb_fusion2_usb.rs:161-162):
`em |= 0x01 | 0x02 | 0x08 | 0x10; em |= 0x10`. -/
def mask1 (effect_mask : ℕ) : ℕ :=
  (effect_mask ||| (0x01 ||| 0x02 ||| 0x08 ||| 0x10)) ||| 0x10

/-- The mask after the further `|= 0x02`
(src/gigabyte_rgb_fusion2_usb.rs:171). -/
def mask2 (effect_mask : ℕ) : ℕ := mask1 effect_mask ||| 0x02

/-- The mask after the further `|= 0x1`
(src/gigabyte_rgb_fusion2_usb.rs:180). -/
def mask3 (effect_mask : ℕ) : ℕ := mask2 effect_mask ||| 0x1

/-- The effect packet built in `set_led_colour`
(src/gigabyte_rgb_fusion2_usb.rs:192-196):
`PktEffect::for_led(LED3 as i32, 0x5711, RID)
  .with_effect_type(STATIC).with_brightness(0xFF, 0x00)
  .with_color0_rgb(r, g, b)`. -/
def effect_pkt (r g b : ℕ) : PktEffect :=
  (((PktEffect.for_led (LED3 : ℤ) 0x5711 RID).with_effect_type
    effect.STATIC).with_brightness 0xFF 0x00).with_color0_rgb r g b

/-- The full HID trace of `Fusion2Argb::set_led_colour(r, g, b)`
(src/gigabyte_rgb_fusion2_usb.rs:160-202): the 64-byte feature reports
sent, in order — the three bus streams and the single-LED stream, each
followed by a `0x32` disable-bitmask write with the current effect mask,
then the effect packet and the final `0x28` apply command with mask
`0xFF`. -/
def set_led_colour_trace (bo1 bo2 : ℕ × ℕ × ℕ) (d1 d2 d3 : ℕ)
    (effect_mask r g b : ℕ) : List (List ℕ) :=
  ((stream_strip_solid HDR_DLED3_RGB bo2 d3 (r, g, b)).map
      fun p => buf64_of_writes p.writes) ++
  [send64_buf 0x32 (mask1 effect_mask) 0x00] ++
  ((stream_strip_solid HDR_DLED2_RGB bo2 d2 (r, g, b)).map
      fun p => buf64_of_writes p.writes) ++
  [send64_buf 0x32 (mask2 effect_mask) 0x00] ++
  ((stream_strip_solid HDR_DLED1_RGB bo1 d1 (r, g, b)).map
      fun p => buf64_of_writes p.writes) ++
  [send64_buf 0x32 (mask3 effect_mask) 0x00] ++
  ((stream_strip_solid LED3 bo1 1 (r, g, b)).map
      fun p => buf64_of_writes p.writes) ++
  [send64_buf 0x32 (mask3 effect_mask) 0x00] ++
  [(effect_pkt r g b).to_bytes] ++
  [send64_buf 0x28 0xFF 0x00]

/-- C8 (amended): Effect packet contents — for every input triple
`(r, g, b)` (byte values), the single 64-byte effect packet built and sent
by `set_led_colour` has effect type "static", brightness bounds at the
extremes (max `0xFF`, min `0x00`), its `color0` field equal to the packed
colour `(r << 16) | (g << 8) | b`, and its `color1` companion field equal
to **zero** (not full white: nothing in the packet construction ever sets
`color1`, so it keeps `blank()`'s `0`); the packet is 64 bytes and is
followed in the send trace by the apply command (`0x28`) with mask
`0xFF`. -/
theorem C8_effect_packet (bo1 bo2 : ℕ × ℕ × ℕ) (d1 d2 d3 em r g b : ℕ) :
    (effect_pkt r g b).effect_type = effect.STATIC ∧
    (effect_pkt r g b).max_brightness = 0xFF ∧
    (effect_pkt r g b).min_brightness = 0x00 ∧
    (effect_pkt r g b).color0 = (r <<< 16) ||| (g <<< 8) ||| b ∧
    (effect_pkt r g b).color1 = 0 ∧
    (effect_pkt r g b).to_bytes.length = 64 ∧
    (∃ pre, set_led_colour_trace bo1 bo2 d1 d2 d3 em r g b =
       pre ++ [(effect_pkt r g b).to_bytes, send64_buf 0x28 0xFF 0x00]) := by
  refine ⟨rfl, rfl, rfl, rfl, rfl, ?_, ?_⟩
  · simp [PktEffect.to_bytes, PktEffect.put_u32, PktEffect.put_u16]
  · refine ⟨((stream_strip_solid HDR_DLED3_RGB bo2 d3 (r, g, b)).map
        fun p => buf64_of_writes p.writes) ++
      [send64_buf 0x32 (mask1 em) 0x00] ++
      ((stream_strip_solid HDR_DLED2_RGB bo2 d2 (r, g, b)).map
          fun p => buf64_of_writes p.writes) ++
      [send64_buf 0x32 (mask2 em) 0x00] ++
      ((stream_strip_solid HDR_DLED1_RGB bo1 d1 (r, g, b)).map
          fun p => buf64_of_writes p.writes) ++
      [send64_buf 0x32 (mask3 em) 0x00] ++
      ((stream_strip_solid LED3 bo1 1 (r, g, b)).map
          fun p => buf64_of_writes p.writes) ++
      [send64_buf 0x32 (mask3 em) 0x00], ?_⟩
    simp [set_led_colour_trace]

/-- C8, counterexample to the unamended claim: at input `(1, 2, 3)` the
effect packet's `color1` field is `0`, with bytes 18–21 of the packet all
zero — not the claimed full white `0xFFFFFF`. -/
theorem C8_color1_not_white_cex :
    (effect_pkt 1 2 3).color1 = 0 ∧
    (effect_pkt 1 2 3).to_bytes.getD 18 0 = 0 ∧
    (effect_pkt 1 2 3).to_bytes.getD 19 0 = 0 ∧
    (effect_pkt 1 2 3).to_bytes.getD 20 0 = 0 ∧
    (effect_pkt 1 2 3).to_bytes.getD 21 0 = 0 ∧
    (effect_pkt 1 2 3).color1 ≠ 0xFFFFFF := by
  decide

end Fusion2Argb

/-! ## The colour-distribution channel (src/main.rs)

`main` creates the channel with `tokio::sync::mpsc::channel(8)`
(src/main.rs:190): a **bounded multi-producer single-consumer FIFO queue of
capacity 8**, whose receiving end `run_rgb_server` drains with
`new_led_state.recv().await` (src/main.rs:69).  The model below is the
documented semantics of that primitive: `send` appends to the buffer when
there is room and otherwise suspends the sender until room exists (`none`
here — a send never discards a buffered value), and `recv` removes the
*oldest* buffered value.  (The source itself notes the ambition to "use a
data type which only looks at the latest event" in the comment at
src/main.rs:68 — which is precisely what `mpsc` does **not** do.) -/

/-- The channel's capacity: `tokio::sync::mpsc::channel(8)`. -/
def chan_capacity : ℕ := 8

/-- `send_rgb_value.send(x).await`: append when the buffer has room;
`none` models the sender suspending on a full buffer (no value is ever
discarded or replaced). -/
def chan_send (q : List ℚ) (x : ℚ) : Option (List ℚ) :=
  if q.length < chan_capacity then some (q ++ [x]) else none

/-- `new_led_state.recv().await`: take the oldest buffered value. -/
def chan_recv (q : List ℚ) : Option (ℚ × List ℚ) :=
  match q with
  | [] => none
  | x :: rest => some (x, rest)

/-- C9 (amended): the colour-distribution channel is a bounded (capacity 8)
FIFO, not a single-slot latest-value conduit — a send onto a non-full
buffer preserves every already-buffered value and appends the new one, and
a receive delivers the *oldest* buffered value; so when the state machine
emits faster than the device-driving task receives, the intermediate values
are buffered and delivered in emission order (the sender blocking once 8
are pending), not silently superseded by the most recent one. -/
theorem C9_channel_fifo :
    (∀ (q : List ℚ) (x : ℚ), q.length < chan_capacity →
       chan_send q x = some (q ++ [x])) ∧
    (∀ (x : ℚ) (rest : List ℚ), chan_recv (x :: rest) = some (x, rest)) := by
  constructor
  · intro q x h
    simp [chan_send, h]
  · intro x rest
    rfl

/-- C9, counterexample to the unamended claim: the state machine sends 1/2
and then 1 before the device-driving task receives; the task's next receive
delivers the intermediate value 1/2, not the most recently sent value 1. -/
theorem C9_latest_only_cex :
    chan_send [] (1/2 : ℚ) = some [1/2] ∧
    chan_send [(1/2 : ℚ)] 1 = some [1/2, 1] ∧
    chan_recv [(1/2 : ℚ), 1] = some (1/2, [1]) ∧
    ((1/2 : ℚ) ≠ 1) := by
  refine ⟨?_, ?_, rfl, by norm_num⟩ <;> simp [chan_send, chan_capacity]
